import Mathlib

/-!
Verification of the intgemm kernel/callback layer (src/kernels/implementations.inl,
src/callbacks/implementations.inl, src/intrinsics.h) against its specification.

Modelling conventions (shallow embedding):
* A SIMD lane holding a float value is modelled as a rational number, except where
  IEEE special values matter; there a lane is an `FQ` (finite rational, NaN, or an
  infinity) and the Intel min/max NaN/ordering semantics are modelled explicitly.
  Floating-point rounding of arithmetic is not modelled: the lanes carry exact
  rationals, matching the spec's "exact arithmetic modulo floating-point rounding
  error" reading.  Conversions int32 -> float are modelled as exact (they are exact
  on the library's operating range |n| <= 2^24).
* A SIMD lane holding an N-bit integer is modelled as its bit pattern, a natural
  number below 2^N; `signed8/16/32` give the two's-complement reading.
* cvtps_epi32 (convert with round-to-nearest-even, with the Intel out-of-range
  result 0x80000000) is `cvtps_epi32`, built on the unbounded rounding `rne`;
  cvttps_epi32 (truncate toward zero, same out-of-range result) is
  `cvttps_epi32`.  The gather index inside exp_approx_taylor is `rne` applied
  directly, since there the operand is already clamped into [-20, 20] where
  the conversion cannot saturate.
* Memory is a total map from integer indices to rationals; `write` updates the
  four lanes of a 128-bit register at an offset and nothing else.
-/

namespace IntgemmSpec

/-! ## Round-to-nearest-even conversion (cvtps_epi32, the hardware default) -/

/-- Round a rational to the nearest integer, ties to even: the semantics of
cvtps_epi32 under the default MXCSR rounding mode. -/
def rne (x : ℚ) : ℤ :=
  let n := ⌊x⌋
  let r := x - n
  if r < 1/2 then n
  else if 1/2 < r then n + 1
  else if Even n then n else n + 1

theorem rne_sub_abs_le (x : ℚ) : |(rne x : ℚ) - x| ≤ 1/2 := by
  unfold rne
  have h0 : (0:ℚ) ≤ x - ⌊x⌋ := by
    have := Int.floor_le x
    linarith
  have h1 : x - ⌊x⌋ < 1 := by
    have := Int.lt_floor_add_one x
    push_cast at this ⊢
    linarith
  by_cases hlt : x - ⌊x⌋ < 1/2
  · simp only [hlt, if_true]
    rw [abs_le]
    constructor <;> linarith
  · by_cases hgt : 1/2 < x - ⌊x⌋
    · simp only [hlt, hgt, if_false, if_true]
      rw [abs_le]
      push_cast
      constructor <;> linarith
    · have heq : x - ⌊x⌋ = 1/2 := le_antisymm (not_lt.mp hgt) (not_lt.mp hlt)
      simp only [hlt, hgt, if_false]
      by_cases he : Even (⌊x⌋)
      · simp only [he, if_true]
        rw [abs_le]
        constructor <;> linarith
      · simp only [he, if_false]
        rw [abs_le]
        push_cast
        constructor <;> linarith

theorem rne_intCast (n : ℤ) : rne (n : ℚ) = n := by
  unfold rne
  simp

/-! ## quantize / unquantize (src/kernels/implementations.inl lines 57-66)

quantize(input, quant_mult) = cvtps_epi32(mul_ps(input, quant_mult));
unquantize(input, unquant_mult) = mul_ps(cvtepi32_ps(input), unquant_mult).
Lane-wise; one lane modelled. -/

/-- cvtps_epi32 lane semantics: convert with round to nearest even; a value
whose rounding is out of int32 range yields the Intel integer-indefinite
result 0x80000000 = -2^31. -/
def cvtps_epi32 (x : ℚ) : ℤ :=
  if -(2^31) ≤ rne x ∧ rne x ≤ 2^31 - 1 then rne x else -(2^31)

def quantize (input quant_mult : ℚ) : ℤ := cvtps_epi32 (input * quant_mult)

def unquantize (input : ℤ) (unquant_mult : ℚ) : ℚ := (input : ℚ) * unquant_mult

/-- C1 counterexample: with f = 1/4 and s = 4 (all intermediate values exactly
representable in float32, so no floating-point rounding error occurs anywhere,
and the conversion is far inside int32 range, so no saturation occurs either),
the same-scale round trip unquantize(quantize(f, s), s) = 4 differs from f by
15/4, which exceeds s/2 = 2. -/
theorem quantize_roundtrip_same_scale_cex :
    ¬ (|unquantize (quantize (1/4 : ℚ) 4) 4 - 1/4| ≤ 4/2) := by
  have hr : rne ((1/4 : ℚ) * 4) = 1 := by
    unfold rne
    norm_num
  have h : quantize (1/4 : ℚ) 4 = 1 := by
    unfold quantize cvtps_epi32
    rw [hr, if_pos (by norm_num)]
  rw [h]
  unfold unquantize
  rw [abs_of_pos (by norm_num : (0:ℚ) < ((1:ℤ):ℚ) * 4 - 1/4)]
  norm_num

/-- C1 (amended): the round trip with the reciprocal scale, as the library
pairs quant_mult with unquant_mult = 1/quant_mult, on inputs whose scaled
value converts within int32 range (outside it cvtps_epi32 saturates to the
indefinite value -2^31): for every f and every positive s with rne(f*s) in
[-2^31, 2^31 - 1], |unquantize(quantize(f, s), 1/s) - f| <= 1/(2s) in exact
arithmetic. -/
theorem quantize_roundtrip (f s : ℚ) (hs : 0 < s)
    (h1 : -(2^31) ≤ rne (f * s)) (h2 : rne (f * s) ≤ 2^31 - 1) :
    |unquantize (quantize f s) (1/s) - f| ≤ 1/(2*s) := by
  unfold unquantize quantize cvtps_epi32
  rw [if_pos ⟨h1, h2⟩]
  have hb := rne_sub_abs_le (f * s)
  have hsne : s ≠ 0 := ne_of_gt hs
  have hrw : (rne (f * s) : ℚ) * (1/s) - f = ((rne (f * s) : ℚ) - f * s) * (1/s) := by
    field_simp
    ring
  rw [hrw, abs_mul, abs_of_pos (by positivity : (0:ℚ) < 1/s)]
  have : |(rne (f * s) : ℚ) - f * s| * (1/s) ≤ (1/2) * (1/s) :=
    mul_le_mul_of_nonneg_right hb (by positivity)
  calc |(rne (f * s) : ℚ) - f * s| * (1/s) ≤ (1/2) * (1/s) := this
    _ = 1/(2*s) := by field_simp

theorem quantize_roundtrip_witness :
    |unquantize (quantize (1/4 : ℚ) 4) (1/4) - 1/4| ≤ 1/(2*4) :=
  quantize_roundtrip (1/4) 4 (by norm_num)
    (by rw [show rne ((1/4 : ℚ) * 4) = 1 by unfold rne; norm_num]; norm_num)
    (by rw [show rne ((1/4 : ℚ) * 4) = 1 by unfold rne; norm_num]; norm_num)

/-! ## Integer lanes as bit patterns -/

/-- Two's-complement reading of an 8-bit lane pattern. -/
def signed8 (x : ℕ) : ℤ := if x < 128 then (x : ℤ) else (x : ℤ) - 256

/-- Two's-complement reading of a 16-bit lane pattern. -/
def signed16 (x : ℕ) : ℤ := if x < 2^15 then (x : ℤ) else (x : ℤ) - 2^16

/-- Two's-complement reading of a 32-bit lane pattern. -/
def signed32 (x : ℕ) : ℤ := if x < 2^31 then (x : ℤ) else (x : ℤ) - 2^32

/-! ## Float lanes with IEEE special values, and the Intel max/min semantics

maxps/minps return the second source operand when the lanes compare unordered
(either one NaN) or equal; otherwise the larger/smaller value. -/

/-- A float lane: NaN, an infinity, or a finite value (modelled as an exact
rational). -/
inductive FQ where
  | nan : FQ
  | pinf : FQ
  | ninf : FQ
  | fin : ℚ → FQ
deriving DecidableEq

/-- Ordering test a > b on non-NaN float lanes (false on any NaN, matching the
unordered comparison result used by maxps). -/
def fqGt : FQ → FQ → Bool
  | .nan, _ => false
  | _, .nan => false
  | .pinf, .pinf => false
  | .pinf, _ => true
  | .ninf, _ => false
  | .fin _, .pinf => false
  | .fin _, .ninf => true
  | .fin p, .fin q => decide (q < p)

/-- Ordering test a < b on non-NaN float lanes. -/
def fqLt (a b : FQ) : Bool := fqGt b a

/-- maxps lane semantics: if either operand is NaN, or the operands are equal,
the result is the second operand; otherwise the larger. -/
def maxFQ (a b : FQ) : FQ :=
  if a = .nan ∨ b = .nan then b else if fqGt a b then a else b

/-- minps lane semantics: if either operand is NaN, or the operands are equal,
the result is the second operand; otherwise the smaller. -/
def minFQ (a b : FQ) : FQ :=
  if a = .nan ∨ b = .nan then b else if fqLt a b then a else b

/-! ## ReLU (src/kernels/implementations.inl lines 99-142) -/

/-- relu for int8 on SSE2 (no native max_epi8): and_si(input, _mm_cmplt_epi8(0, input));
cmplt produces the all-ones byte 255 on lanes where 0 < input (signed), else 0. -/
def relu8SSE2 (x : ℕ) : ℕ := x &&& (if 0 < signed8 x then 255 else 0)

/-- relu for int8 on AVX2/AVX512BW: native signed max against zero
(max_epi8(input, 0)), per 8-bit lane on bit patterns. -/
def relu8Native (x : ℕ) : ℕ := if 0 < signed8 x then x else 0

/-- relu for int16 (all tiers): native max_epi16(input, 0) per 16-bit lane. -/
def relu16Native (x : ℕ) : ℕ := if 0 < signed16 x then x else 0

/-- relu for int32 on SSE2: and_si(input, _mm_cmplt_epi32(0, input)); the
compare mask is the all-ones 32-bit lane on lanes where 0 < input (signed). -/
def relu32SSE2 (x : ℕ) : ℕ := x &&& (if 0 < signed32 x then 2^32 - 1 else 0)

/-- relu for int32 on AVX2/AVX512BW: native max_epi32(input, 0). -/
def relu32Native (x : ℕ) : ℕ := if 0 < signed32 x then x else 0

/-- relu for float (all tiers): max_ps(input, setzero_ps()), with the input as
first operand and zero as second. -/
def reluPS (x : FQ) : FQ := maxFQ x (.fin 0)

/-- relu for double (all tiers): max_pd(input, setzero_pd()). -/
def reluPD (x : FQ) : FQ := maxFQ x (.fin 0)

/-- C2: on every supported element type and tier relu computes the lane-wise
maximum against zero: the SSE2 int8 mask-and emulation is bit-identical to the
native signed max (so in particular at 0, -1 = pattern 255, and the minimum
value -128 = pattern 128); int16/int32 native and SSE2-emulated forms realise
max(x, 0) in signed reading; finite float/double lanes give max(x, 0). -/
theorem relu_max_all_types :
    (∀ x : ℕ, x < 2^8 → relu8SSE2 x = relu8Native x) ∧
    (∀ x : ℕ, x < 2^8 → signed8 (relu8Native x) = max (signed8 x) 0) ∧
    (∀ x : ℕ, x < 2^16 → signed16 (relu16Native x) = max (signed16 x) 0) ∧
    (∀ x : ℕ, x < 2^32 → relu32SSE2 x = relu32Native x) ∧
    (∀ x : ℕ, x < 2^32 → signed32 (relu32Native x) = max (signed32 x) 0) ∧
    (∀ q : ℚ, reluPS (.fin q) = .fin (max q 0)) ∧
    (∀ q : ℚ, reluPD (.fin q) = .fin (max q 0)) := by
  have hfloat : ∀ q : ℚ, maxFQ (.fin q) (.fin 0) = .fin (max q 0) := by
    intro q
    unfold maxFQ fqGt
    by_cases h : (0:ℚ) < q
    · simp [h, max_eq_left (le_of_lt h)]
    · simp [h, max_eq_right (not_lt.mp h)]
  refine ⟨?_, ?_, ?_, ?_, ?_, hfloat, hfloat⟩
  · intro x hx
    unfold relu8SSE2 relu8Native
    by_cases h : 0 < signed8 x
    · simpa [h] using Nat.and_pow_two_sub_one_of_lt_two_pow (n := 8) hx
    · simp [h]
  · intro x hx
    unfold relu8Native signed8
    split_ifs <;> simp_all <;> omega
  · intro x hx
    unfold relu16Native signed16
    split_ifs <;> simp_all <;> omega
  · intro x hx
    unfold relu32SSE2 relu32Native
    by_cases h : 0 < signed32 x
    · simpa [h] using Nat.and_pow_two_sub_one_of_lt_two_pow (n := 32) hx
    · simp [h]
  · intro x hx
    unfold relu32Native signed32
    split_ifs <;> simp_all <;> omega

theorem relu_max_all_types_witness :
    relu8SSE2 128 = relu8Native 128 ∧
    signed8 (relu8Native 255) = max (signed8 255) 0 ∧
    signed16 (relu16Native 0) = max (signed16 0) 0 ∧
    relu32SSE2 (2^32 - 1) = relu32Native (2^32 - 1) ∧
    signed32 (relu32Native 1) = max (signed32 1) 0 ∧
    reluPS (.fin (-1)) = .fin (max (-1) 0) :=
  ⟨relu_max_all_types.1 128 (by norm_num),
   relu_max_all_types.2.1 255 (by norm_num),
   relu_max_all_types.2.2.1 0 (by norm_num),
   relu_max_all_types.2.2.2.1 (2^32 - 1) (by norm_num),
   relu_max_all_types.2.2.2.2.1 1 (by norm_num),
   relu_max_all_types.2.2.2.2.2.1 (-1)⟩

/-! ## Elementwise multiply (src/kernels/implementations.inl lines 150-183)

The int8 emulation operates on 16-bit lanes (each holding a low byte and a high
byte); its instructions (mullo_epi16, srli_epi16, slli_epi16, or_si) are 16-bit
lane-wise, so one 16-bit lane is modelled. -/

/-- mullo_epi16 on one 16-bit lane: low 16 bits of the 16x16 product. -/
def mullo16 (a b : ℕ) : ℕ := (a * b) % 2^16

/-- srli_epi16 on one 16-bit lane: logical shift right. -/
def srli16 (a k : ℕ) : ℕ := a >>> k

/-- slli_epi16 on one 16-bit lane: shift left, truncated to 16 bits. -/
def slli16 (a k : ℕ) : ℕ := (a <<< k) % 2^16

/-- multiply for int8 (all tiers, no native 8-bit lane multiply), one 16-bit
lane of the register:
  even = mullo_epi16(a, b);
  odd  = mullo_epi16(srli_epi16(a, 8), srli_epi16(b, 8));
  or_si(slli_epi16(odd, 8), srli_epi16(slli_epi16(even, 8), 8)). -/
def multiply8Lane (a b : ℕ) : ℕ :=
  let even := mullo16 a b
  let odd := mullo16 (srli16 a 8) (srli16 b 8)
  (slli16 odd 8) ||| (srli16 (slli16 even 8) 8)

/-- C3 helper: the emulated int8 multiply seen through the two byte fields of
its 16-bit lane: the low byte is the wraparound product of the low bytes, the
high byte the wraparound product of the high bytes. -/
theorem multiply8Lane_bytes (a b : ℕ) :
    multiply8Lane a b % 2^8 = (a % 2^8) * (b % 2^8) % 2^8 ∧
    multiply8Lane a b / 2^8 = (a / 2^8) * (b / 2^8) % 2^8 ∧
    multiply8Lane a b < 2^16 := by
  have hsplit : (2:ℕ)^16 = 2^8 * 2^8 := by norm_num
  have hdvd : (2:ℕ)^8 ∣ 2^8 * 2^8 := dvd_mul_right _ _
  have key : multiply8Lane a b
      = 2^8 * (a / 2^8 * (b / 2^8) % 2^8) + a * b % 2^8 := by
    unfold multiply8Lane mullo16 srli16 slli16
    simp only [Nat.shiftLeft_eq, Nat.shiftRight_eq_div_pow]
    rw [hsplit, Nat.mul_mod_mul_right, Nat.mul_mod_mul_right,
      Nat.mul_div_cancel _ (by positivity : (0:ℕ) < 2^8),
      Nat.mod_mod_of_dvd _ hdvd, Nat.mod_mod_of_dvd _ hdvd,
      mul_comm (a / 2^8 * (b / 2^8) % 2^8) (2^8),
      ← Nat.mul_add_lt_is_or (Nat.mod_lt _ (by positivity)) _]
  rw [key]
  have hlo : a * b % 2^8 < 2^8 := Nat.mod_lt _ (by positivity)
  have hhi : a / 2^8 * (b / 2^8) % 2^8 < 2^8 := Nat.mod_lt _ (by positivity)
  refine ⟨?_, ?_, by omega⟩
  · rw [Nat.mul_add_mod, Nat.mod_eq_of_lt hlo, Nat.mul_mod]
  · rw [Nat.mul_add_div (by positivity : (0:ℕ) < 2^8),
      Nat.div_eq_of_lt hlo, Nat.add_zero, Nat.mul_mod]

/-- A 128-bit register viewed as four 32-bit lanes (bit patterns, lane 0 the
least significant). -/
structure Vec4 where
  x0 : ℕ
  x1 : ℕ
  x2 : ℕ
  x3 : ℕ

/-- Lane selector used by shuffle (indices are taken from a 2-bit field, so
only 0..3 occur). -/
def Vec4.get (v : Vec4) (i : ℕ) : ℕ :=
  if i = 0 then v.x0 else if i = 1 then v.x1 else if i = 2 then v.x2 else v.x3

/-- mul_epu32: unsigned 32x32->64 multiply of lanes 0 and 2; each 64-bit
product occupies one register half, low 32 bits in lanes 0/2, high 32 bits in
lanes 1/3. -/
def mul_epu32 (a b : Vec4) : Vec4 :=
  ⟨a.x0 * b.x0 % 2^32, a.x0 * b.x0 / 2^32,
   a.x2 * b.x2 % 2^32, a.x2 * b.x2 / 2^32⟩

/-- _mm_srli_si128 by 4 bytes: shift the whole register right one 32-bit lane,
filling with zero. -/
def srliSi128By4 (a : Vec4) : Vec4 := ⟨a.x1, a.x2, a.x3, 0⟩

/-- shuffle_epi32: result lane k is the source lane selected by bits
[2k+1 : 2k] of the immediate. -/
def shuffle_epi32 (a : Vec4) (imm8 : ℕ) : Vec4 :=
  ⟨a.get ((imm8 >>> 0) % 4), a.get ((imm8 >>> 2) % 4),
   a.get ((imm8 >>> 4) % 4), a.get ((imm8 >>> 6) % 4)⟩

/-- unpacklo_epi32: interleave the low two 32-bit lanes of the two sources. -/
def unpacklo_epi32 (a b : Vec4) : Vec4 := ⟨a.x0, b.x0, a.x1, b.x1⟩

/-- multiply for int32 on SSE2 (no native 32x32->32 lane multiply):
  even = mul_epu32(a, b);
  odd  = mul_epu32(_mm_srli_si128(a, 4), _mm_srli_si128(b, 4));
  unpacklo_epi32(shuffle_epi32(even, 0x8), shuffle_epi32(odd, 0x8)). -/
def multiplyIntSSE2 (a b : Vec4) : Vec4 :=
  let even := mul_epu32 a b
  let odd := mul_epu32 (srliSi128By4 a) (srliSi128By4 b)
  unpacklo_epi32 (shuffle_epi32 even 0x8) (shuffle_epi32 odd 0x8)

/-- multiply for int32 on AVX2/AVX512BW: native mullo_epi32, the low 32 bits
of each signed lane product (as bit pattern, the product of the patterns
modulo 2^32). -/
def mulloEpi32 (a b : Vec4) : Vec4 :=
  ⟨a.x0 * b.x0 % 2^32, a.x1 * b.x1 % 2^32,
   a.x2 * b.x2 % 2^32, a.x3 * b.x3 % 2^32⟩

/-- C3: elementwise multiply matches the per-lane wraparound reference on every
path: (i) per 16-bit lane the emulated int8 multiply leaves the low byte equal
to the low bytes' product mod 256 and the high byte equal to the high bytes'
product mod 256 — equivalently, in signed reading, the wraparound (mod 256,
not saturating) product; (ii) the SSE2 emulated int32 path equals the native
mullo_epi32 bit-for-bit in every lane, i.e. the low 32 bits of each lane
product in original lane order. -/
theorem multiply_matches_reference :
    (∀ a b : ℕ, a < 2^16 → b < 2^16 →
      multiply8Lane a b % 2^8 = (a % 2^8) * (b % 2^8) % 2^8 ∧
      multiply8Lane a b / 2^8 = (a / 2^8) * (b / 2^8) % 2^8) ∧
    (∀ a b : ℕ,
      (signed8 (multiply8Lane a b % 2^8) : ℤ) ≡
        signed8 (a % 2^8) * signed8 (b % 2^8) [ZMOD 2^8]) ∧
    (∀ a b : Vec4, multiplyIntSSE2 a b = mulloEpi32 a b) := by
  have hsig : ∀ x : ℕ, (signed8 x : ℤ) ≡ (x : ℤ) [ZMOD 256] := by
    intro x
    unfold signed8
    split
    · rfl
    · show ((x : ℤ) - 256) % 256 = (x : ℤ) % 256
      omega
  refine ⟨?_, ?_, ?_⟩
  · intro a b ha hb
    exact ⟨(multiply8Lane_bytes a b).1, (multiply8Lane_bytes a b).2.1⟩
  · intro a b
    have h1 := (multiply8Lane_bytes a b).1
    rw [h1]
    have h2 : ((a % 2^8) * (b % 2^8) % 2^8 : ℤ) ≡
        ((a % 2^8) * (b % 2^8) : ℤ) [ZMOD 2^8] := by
      show (((a % 2^8) * (b % 2^8) % 2^8 : ℕ) : ℤ) % _ = _
      push_cast
      rw [Int.emod_emod_of_dvd _ dvd_rfl]
    calc (signed8 ((a % 2^8) * (b % 2^8) % 2^8) : ℤ)
        ≡ (((a % 2^8) * (b % 2^8) % 2^8 : ℕ) : ℤ) [ZMOD 2^8] := by
          have := hsig ((a % 2^8) * (b % 2^8) % 2^8)
          exact_mod_cast this
      _ ≡ ((a % 2^8 : ℕ) : ℤ) * ((b % 2^8 : ℕ) : ℤ) [ZMOD 2^8] := by
          push_cast at h2 ⊢
          exact h2
      _ ≡ signed8 (a % 2^8) * signed8 (b % 2^8) [ZMOD 2^8] :=
          (Int.ModEq.mul ((hsig _).symm) ((hsig _).symm)).trans
            (by exact_mod_cast Int.ModEq.refl _)
  · intro a b
    rfl

theorem multiply_matches_reference_witness :
    multiply8Lane 0x04FF 0x02FE % 2^8 = (0x04FF % 2^8) * (0x02FE % 2^8) % 2^8 ∧
    multiply8Lane 0x04FF 0x02FE / 2^8 = (0x04FF / 2^8) * (0x02FE / 2^8) % 2^8 :=
  multiply_matches_reference.1 0x04FF 0x02FE (by norm_num) (by norm_num)

/-! ## floor (src/kernels/implementations.inl lines 188-213) -/

/-- Truncation toward zero of a rational. -/
def truncQ (x : ℚ) : ℤ := if x < 0 then ⌈x⌉ else ⌊x⌋

/-- cvttps_epi32 lane semantics: convert with truncation toward zero; an
out-of-range value yields the Intel integer-indefinite result 0x80000000 =
-2^31. -/
def cvttps_epi32 (x : ℚ) : ℤ :=
  if -(2^31) ≤ truncQ x ∧ truncQ x ≤ 2^31 - 1 then truncQ x else -(2^31)

/-- floor on SSE2 (no native floor):
  result = cvtepi32_ps(cvttps_epi32(input));
  negatives = cmplt(input, 0); nonintegers = cmpneq(input, result);
  sub_ps(result, and_ps(1.0, and_ps(negatives, nonintegers))). -/
def floorSSE2 (x : ℚ) : ℚ :=
  (cvttps_epi32 x : ℚ) - (if x < 0 ∧ x ≠ (cvttps_epi32 x : ℚ) then 1 else 0)

/-- floor on AVX512BW: the same truncate-and-fix-up emulation, with the fix-up
applied through a mask blend (blend(result, result - 1, negatives AND
nonintegers)) instead of arithmetic masking. -/
def floorAVX512 (x : ℚ) : ℚ :=
  if x < 0 ∧ x ≠ (cvttps_epi32 x : ℚ) then (cvttps_epi32 x : ℚ) - 1
  else (cvttps_epi32 x : ℚ)

/-- floor on AVX2: the native _mm256_floor_ps instruction, exact round toward
negative infinity. -/
def floorAVX2 (x : ℚ) : ℚ := (⌊x⌋ : ℤ)

/-- C4 helper: on inputs whose truncation is representable in int32, both
emulations compute the mathematical floor. -/
theorem floor_emulation_eq_floor (x : ℚ)
    (h1 : -(2^31) ≤ truncQ x) (h2 : truncQ x ≤ 2^31 - 1) :
    floorSSE2 x = (⌊x⌋ : ℤ) ∧ floorAVX512 x = (⌊x⌋ : ℤ) := by
  have hc : cvttps_epi32 x = truncQ x := by
    unfold cvttps_epi32
    split_ifs with h
    · rfl
    · exact absurd ⟨h1, h2⟩ h
  have key : ((truncQ x : ℤ) : ℚ) - (if x < 0 ∧ x ≠ ((truncQ x : ℤ) : ℚ) then 1 else 0)
      = ((⌊x⌋ : ℤ) : ℚ) := by
    unfold truncQ
    by_cases hneg : x < 0
    · simp only [hneg, if_true, true_and]
      by_cases hint : x = ((⌈x⌉ : ℤ) : ℚ)
      · have hfc : ⌊x⌋ = ⌈x⌉ := by
          rw [hint]
          simp
        rw [if_neg (not_not_intro hint), hfc, sub_zero]
      · have hlt : ⌊x⌋ < ⌈x⌉ := by
          rcases lt_or_eq_of_le (Int.floor_le_ceil x) with h | h
          · exact h
          · exfalso
            apply hint
            have hx1 : ((⌊x⌋ : ℤ) : ℚ) ≤ x := Int.floor_le x
            have hx2 : x ≤ ((⌈x⌉ : ℤ) : ℚ) := Int.le_ceil x
            rw [h] at hx1
            exact le_antisymm hx2 hx1
        have hle : ⌈x⌉ ≤ ⌊x⌋ + 1 := Int.ceil_le_floor_add_one x
        have hceq : ⌈x⌉ = ⌊x⌋ + 1 := by omega
        rw [if_pos hint, hceq]
        push_cast
        ring
    · have hcond : ¬(x < 0 ∧ x ≠ ((⌊x⌋ : ℤ) : ℚ)) := fun h => hneg h.1
      rw [if_neg hneg, if_neg hcond, sub_zero]
  constructor
  · unfold floorSSE2
    rw [hc]
    exact key
  · unfold floorAVX512
    rw [hc]
    split_ifs with h
    · rw [← key, if_pos h]
    · rw [← key, if_neg h, sub_zero]

/-- C4 counterexample: the float 2^31 is exactly representable, but on the
tiers that emulate floor via int32 truncation (SSE2 and AVX512BW) the
truncation overflows to the sentinel -2^31, so floor(2^31) returns -2^31
instead of the mathematical floor 2^31. -/
theorem floor_emulation_cex :
    floorSSE2 ((2:ℚ)^31) = -(2^31) ∧ floorAVX512 ((2:ℚ)^31) = -(2^31) ∧
    (⌊(2:ℚ)^31⌋ : ℚ) = 2^31 := by
  have ht : truncQ ((2:ℚ)^31) = 2^31 := by
    unfold truncQ
    rw [if_neg (by norm_num)]
    norm_num
  have hc : cvttps_epi32 ((2:ℚ)^31) = -(2^31) := by
    unfold cvttps_epi32
    rw [ht, if_neg (by norm_num)]
  have hcond : ¬((2:ℚ)^31 < 0 ∧ (2:ℚ)^31 ≠ ((cvttps_epi32 ((2:ℚ)^31) : ℤ) : ℚ)) :=
    fun h => absurd h.1 (by norm_num)
  refine ⟨?_, ?_, by norm_num⟩
  · unfold floorSSE2
    rw [if_neg hcond, hc, sub_zero]
    push_cast
    ring
  · unfold floorAVX512
    rw [if_neg hcond, hc]
    push_cast
    ring

/-- C4 (amended): on every tier, floor(x) equals the mathematical floor of x
lane-wise for every representable float whose truncation fits in int32 (in
particular for -0.5, -1.0, 2.9999999, -0.0 and all exactly-integral values in
that range); the native AVX2 instruction computes it on all inputs, while the
truncate-then-fix-up emulations of SSE2 and AVX512BW require the truncation to
be in int32 range. -/
theorem floor_all_tiers (x : ℚ)
    (h1 : -(2^31) ≤ truncQ x) (h2 : truncQ x ≤ 2^31 - 1) :
    floorSSE2 x = (⌊x⌋ : ℤ) ∧ floorAVX512 x = (⌊x⌋ : ℤ) ∧
    floorAVX2 x = (⌊x⌋ : ℤ) :=
  ⟨(floor_emulation_eq_floor x h1 h2).1, (floor_emulation_eq_floor x h1 h2).2, rfl⟩

theorem floor_all_tiers_witness :
    floorSSE2 (-(1/2) : ℚ) = ((⌊(-(1/2) : ℚ)⌋ : ℤ) : ℚ) ∧
    floorAVX512 (-(1/2) : ℚ) = ((⌊(-(1/2) : ℚ)⌋ : ℤ) : ℚ) ∧
    floorAVX2 (-(1/2) : ℚ) = ((⌊(-(1/2) : ℚ)⌋ : ℤ) : ℚ) :=
  floor_all_tiers (-(1/2))
    (by
      unfold truncQ
      rw [if_pos (by norm_num : (-(1/2):ℚ) < 0),
        show (⌈(-(1/2):ℚ)⌉ : ℤ) = 0 by norm_num]
      norm_num)
    (by
      unfold truncQ
      rw [if_pos (by norm_num : (-(1/2):ℚ) < 0),
        show (⌈(-(1/2):ℚ)⌉ : ℤ) = 0 by norm_num]
      norm_num)

/-! ## exp_approx_taylor (src/kernels/implementations.inl lines 218-273)

The function is headed by the clamp
  x = max_ps(x, set1(EXP_MIN)); x = min_ps(x, set1(EXP_MAX));
then splits x into a = floor(x) and xa = x - a, evaluates the degree-7 Taylor
polynomial of e^xa by Horner with reciprocal-factorial coefficients, gathers
EXP_LOOKUP[EXP_MAX + cvtps_epi32(a)], and multiplies.  The lookup table is
built from the constexpr function expi() of utils.h, which is not among the
sources under verification, so the model is parameterized by the table
`expi : ℤ → ℚ` (with `expi k` the entry the gather reads for integer index k). -/

/-- Clamp head of exp_approx_taylor: max then min against the broadcast bounds,
with the input as the first operand of each. -/
def expClamp (x : FQ) : FQ := minFQ (maxFQ x (.fin (-20))) (.fin 20)

/-- Value of a finite float lane (the clamped lane is always finite). -/
def unFin : FQ → ℚ
  | .fin q => q
  | _ => 0

/-- Degree-7 Taylor polynomial of e^xa around 0 evaluated exactly as the kernel
sequences its Horner steps (dividers 1/7!, 1/6!, ..., 1/1!, then + 1). -/
def hornerExp (xa : ℚ) : ℚ :=
  ((((((1/5040 * xa + 1/720) * xa + 1/120) * xa + 1/24) * xa + 1/6) * xa + 1/2) * xa + 1)
    * xa + 1

/-- exp_approx_taylor on AVX2, one float lane: clamp; a = floor(x) by the
native floor; xa = x - a; gather expi at cvtps_epi32(a); multiply by the
Horner polynomial. -/
def exp_approx_taylorAVX2 (expi : ℤ → ℚ) (x : FQ) : ℚ :=
  let xc := unFin (expClamp x)
  let a := floorAVX2 xc
  expi (rne a) * hornerExp (xc - a)

/-- exp_approx_taylor on AVX512BW: identical except that floor is the
truncate-and-fix-up emulation of that tier. -/
def exp_approx_taylorAVX512 (expi : ℤ → ℚ) (x : FQ) : ℚ :=
  let xc := unFin (expClamp x)
  let a := floorAVX512 xc
  expi (rne a) * hornerExp (xc - a)

theorem expClamp_fin (x : FQ) :
    ∃ q : ℚ, expClamp x = .fin q ∧ -20 ≤ q ∧ q ≤ 20 := by
  cases x with
  | nan =>
    refine ⟨-20, ?_, by norm_num, by norm_num⟩
    simp [expClamp, maxFQ, minFQ, fqLt, fqGt]
  | pinf =>
    refine ⟨20, ?_, by norm_num, by norm_num⟩
    simp [expClamp, maxFQ, minFQ, fqLt, fqGt]
  | ninf =>
    refine ⟨-20, ?_, by norm_num, by norm_num⟩
    simp [expClamp, maxFQ, minFQ, fqLt, fqGt]
  | fin q =>
    by_cases h1 : (-20:ℚ) < q
    · by_cases h2 : q < 20
      · refine ⟨q, ?_, le_of_lt h1, le_of_lt h2⟩
        simp [expClamp, maxFQ, minFQ, fqLt, fqGt, h1, h2]
      · refine ⟨20, ?_, by norm_num, le_refl _⟩
        simp [expClamp, maxFQ, minFQ, fqLt, fqGt, h1, h2]
    · refine ⟨-20, ?_, le_refl _, by norm_num⟩
      simp [expClamp, maxFQ, minFQ, fqLt, fqGt, h1]

theorem expClamp_of_mem {q : ℚ} (h1 : -20 ≤ q) (h2 : q ≤ 20) :
    expClamp (.fin q) = .fin q := by
  rcases lt_or_eq_of_le h1 with h1l | h1e
  · rcases lt_or_eq_of_le h2 with h2l | h2e
    · simp [expClamp, maxFQ, minFQ, fqLt, fqGt, h1l, h2l]
    · subst h2e
      simp [expClamp, maxFQ, minFQ, fqLt, fqGt]
  · rw [← h1e]
    simp [expClamp, maxFQ, minFQ, fqLt, fqGt]

theorem expClamp_idem (x : FQ) : expClamp (expClamp x) = expClamp x := by
  obtain ⟨q, hq, h1, h2⟩ := expClamp_fin x
  rw [hq, expClamp_of_mem h1 h2]

theorem truncQ_mem {q : ℚ} (h1 : -20 ≤ q) (h2 : q ≤ 20) :
    -(2^31) ≤ truncQ q ∧ truncQ q ≤ 2^31 - 1 := by
  unfold truncQ
  split
  · have hcl : ⌈(-20 : ℚ)⌉ = (-20 : ℤ) := by
      rw [show (-20:ℚ) = ((-20:ℤ):ℚ) by norm_num, Int.ceil_intCast]
    have hcr : ⌈(20 : ℚ)⌉ = (20 : ℤ) := by
      rw [show (20:ℚ) = ((20:ℤ):ℚ) by norm_num, Int.ceil_intCast]
    have hl := Int.ceil_le_ceil h1
    have hr := Int.ceil_le_ceil h2
    rw [hcl] at hl
    rw [hcr] at hr
    constructor <;> omega
  · have hfl : ⌊(-20 : ℚ)⌋ = (-20 : ℤ) := by
      rw [show (-20:ℚ) = ((-20:ℤ):ℚ) by norm_num, Int.floor_intCast]
    have hfr : ⌊(20 : ℚ)⌋ = (20 : ℤ) := by
      rw [show (20:ℚ) = ((20:ℤ):ℚ) by norm_num, Int.floor_intCast]
    have hl := Int.floor_le_floor h1
    have hr := Int.floor_le_floor h2
    rw [hfl] at hl
    rw [hfr] at hr
    constructor <;> omega

/-- On every input the AVX512BW instance computes the same value as the AVX2
instance: after the clamp the lane is finite with truncation far inside int32
range, where the emulated floor equals the native one. -/
theorem exp_tiers_agree (expi : ℤ → ℚ) (x : FQ) :
    exp_approx_taylorAVX512 expi x = exp_approx_taylorAVX2 expi x := by
  obtain ⟨q, hq, h1, h2⟩ := expClamp_fin x
  obtain ⟨hb1, hb2⟩ := truncQ_mem h1 h2
  simp only [exp_approx_taylorAVX512, exp_approx_taylorAVX2, hq, unFin]
  rw [(floor_emulation_eq_floor q hb1 hb2).2]
  rfl

theorem hornerExp_zero : hornerExp 0 = 1 := by
  unfold hornerExp
  norm_num

theorem hornerExp_pos (xa : ℚ) (h : 0 ≤ xa) : 0 < hornerExp xa := by
  unfold hornerExp
  have c1 : 0 ≤ 1/5040 * xa := mul_nonneg (by norm_num) h
  have c2 : 0 ≤ (1/5040 * xa + 1/720) * xa := mul_nonneg (by linarith) h
  have c3 : 0 ≤ ((1/5040 * xa + 1/720) * xa + 1/120) * xa := mul_nonneg (by linarith) h
  have c4 : 0 ≤ (((1/5040 * xa + 1/720) * xa + 1/120) * xa + 1/24) * xa :=
    mul_nonneg (by linarith) h
  have c5 : 0 ≤ ((((1/5040 * xa + 1/720) * xa + 1/120) * xa + 1/24) * xa + 1/6) * xa :=
    mul_nonneg (by linarith) h
  have c6 : 0 ≤ (((((1/5040 * xa + 1/720) * xa + 1/120) * xa + 1/24) * xa + 1/6) * xa
      + 1/2) * xa := mul_nonneg (by linarith) h
  have c7 : 0 ≤ ((((((1/5040 * xa + 1/720) * xa + 1/120) * xa + 1/24) * xa + 1/6) * xa
      + 1/2) * xa + 1) * xa := mul_nonneg (by linarith) h
  linarith

/-- The per-lane map of exp_approx_taylor over an 8-lane AVX2 float register
(every instruction involved is lane-wise, the gather included). -/
def expVec8 (expi : ℤ → ℚ) (v : Fin 8 → FQ) : Fin 8 → ℚ :=
  fun i => exp_approx_taylorAVX2 expi (v i)

/-- C7: on a vector whose lanes all hold the integer n in [-20, 20] every lane
of exp_approx_taylor returns exactly the table entry for e^n — the remainder
xa = n - floor(n) is 0, where the Horner polynomial evaluates to exactly 1 —
on AVX2, and likewise the AVX512BW instance. -/
theorem exp_integer_lattice (expi : ℤ → ℚ) (n : ℤ)
    (h1 : -20 ≤ n) (h2 : n ≤ 20) :
    (∀ i : Fin 8, expVec8 expi (fun _ => .fin (n : ℚ)) i = expi n) ∧
    exp_approx_taylorAVX512 expi (.fin (n : ℚ)) = expi n := by
  have hq1 : (-20 : ℚ) ≤ (n : ℚ) := by exact_mod_cast h1
  have hq2 : (n : ℚ) ≤ 20 := by exact_mod_cast h2
  have core : exp_approx_taylorAVX2 expi (.fin (n : ℚ)) = expi n := by
    simp only [exp_approx_taylorAVX2, expClamp_of_mem hq1 hq2, unFin, floorAVX2]
    rw [Int.floor_intCast, sub_self, hornerExp_zero, rne_intCast, mul_one]
  exact ⟨fun i => core, (exp_tiers_agree expi _).trans core⟩

theorem exp_integer_lattice_witness :
    expVec8 (fun _ => (2:ℚ)) (fun _ => .fin ((3:ℤ) : ℚ)) 0 = 2 :=
  (exp_integer_lattice (fun _ => (2:ℚ)) 3 (by norm_num) (by norm_num)).1 0

/-- C8: exp_approx_taylor silently saturates out-of-range input: its value on
any lane equals its value on the clamped lane; lanes below -20 behave exactly
as -20 and lanes above 20 exactly as 20, on both tiers that define the
function (the result is a plain value, never an error). -/
theorem exp_clamp_saturates :
    (∀ expi x, exp_approx_taylorAVX2 expi x = exp_approx_taylorAVX2 expi (expClamp x)) ∧
    (∀ expi x, exp_approx_taylorAVX512 expi x = exp_approx_taylorAVX512 expi (expClamp x)) ∧
    (∀ expi (q : ℚ), q < -20 →
      exp_approx_taylorAVX2 expi (.fin q) = exp_approx_taylorAVX2 expi (.fin (-20))) ∧
    (∀ expi (q : ℚ), 20 < q →
      exp_approx_taylorAVX2 expi (.fin q) = exp_approx_taylorAVX2 expi (.fin 20)) := by
  have hclamp : ∀ expi x, exp_approx_taylorAVX2 expi x
      = exp_approx_taylorAVX2 expi (expClamp x) := by
    intro expi x
    simp only [exp_approx_taylorAVX2, expClamp_idem]
  refine ⟨hclamp, ?_, ?_, ?_⟩
  · intro expi x
    rw [exp_tiers_agree, exp_tiers_agree, hclamp]
  · intro expi q h
    have hlo : expClamp (.fin q) = .fin (-20) := by
      have hng : ¬((-20:ℚ) < q) := by linarith
      simp [expClamp, maxFQ, minFQ, fqLt, fqGt, hng]
    rw [hclamp expi (.fin q), hlo, hclamp expi (.fin (-20)),
      expClamp_of_mem (by norm_num) (by norm_num)]
  · intro expi q h
    have hhi : expClamp (.fin q) = .fin 20 := by
      have hg : (-20:ℚ) < q := by linarith
      have hng : ¬(q < (20:ℚ)) := by linarith
      simp [expClamp, maxFQ, minFQ, fqLt, fqGt, hg, hng]
    rw [hclamp expi (.fin q), hhi, hclamp expi (.fin 20),
      expClamp_of_mem (by norm_num) (by norm_num)]

theorem exp_clamp_saturates_witness :
    exp_approx_taylorAVX2 (fun _ => (1:ℚ)) (.fin (-25))
      = exp_approx_taylorAVX2 (fun _ => (1:ℚ)) (.fin (-20)) ∧
    exp_approx_taylorAVX2 (fun _ => (1:ℚ)) (.fin 25)
      = exp_approx_taylorAVX2 (fun _ => (1:ℚ)) (.fin 20) :=
  ⟨exp_clamp_saturates.2.2.1 (fun _ => (1:ℚ)) (-25) (by norm_num),
   exp_clamp_saturates.2.2.2 (fun _ => (1:ℚ)) 25 (by norm_num)⟩

/-- C10: wherever exp_approx_taylor is defined, every lane of the result is
strictly positive for every input lane — NaN and the infinities included,
since the max/min clamp maps them into [-20, 20] — provided every table entry
is positive (the table holds the values of e^k, all positive): the polynomial
is at least 1 on the remainder range [0, 1), and a positive table entry times
a positive polynomial value is positive. -/
theorem exp_always_positive (expi : ℤ → ℚ) (x : FQ) (hpos : ∀ k, 0 < expi k) :
    0 < exp_approx_taylorAVX2 expi x ∧ 0 < exp_approx_taylorAVX512 expi x := by
  have core : 0 < exp_approx_taylorAVX2 expi x := by
    obtain ⟨q, hq, h1, h2⟩ := expClamp_fin x
    simp only [exp_approx_taylorAVX2, hq, unFin, floorAVX2]
    have hxa : 0 ≤ q - (⌊q⌋ : ℚ) := by
      have := Int.floor_le q
      linarith
    exact mul_pos (hpos _) (hornerExp_pos _ hxa)
  exact ⟨core, by rw [exp_tiers_agree]; exact core⟩

theorem exp_always_positive_witness :
    0 < exp_approx_taylorAVX2 (fun _ => (1:ℚ)) (.nan) ∧
    0 < exp_approx_taylorAVX512 (fun _ => (1:ℚ)) (.nan) :=
  exp_always_positive (fun _ => (1:ℚ)) .nan (fun _ => by norm_num)

/-! ## Tier-unsupported transcendental kernels (lines 218-221, 278-281, 315-318)

On SSE2 the bodies of exp_approx_taylor, sigmoid and tanh are assert(false):
the call never produces a value (fatal assertion in checked builds, undefined
behavior otherwise).  Modelled as Option-valued functions that return none for
every input. -/

/-- exp_approx_taylor on SSE2: assert(false && "SSE2 is not supported"). -/
def exp_approx_taylorSSE2 (_x : FQ) : Option ℚ := none

/-- sigmoid on SSE2: assert(false && "SSE2 is not supported"). -/
def sigmoidSSE2 (_x : FQ) : Option ℚ := none

/-- tanh on SSE2: assert(false && "SSE2 is not supported"). -/
def tanhSSE2 (_x : FQ) : Option ℚ := none

/-- Hardware fast reciprocal (_mm256_rcp_ps / _mm512_rcp14_ps), modelled as
the exact reciprocal; its bounded relative error is not modelled. -/
def rcpPS (x : ℚ) : ℚ := 1 / x

/-- sigmoid on AVX2 (finite lane): blend of e^x * rcp(1 + e^x) for 0 < x and
rcp(1 + e^-x) otherwise, both built from exp_approx_taylor. -/
def sigmoidAVX2 (expi : ℤ → ℚ) (x : ℚ) : ℚ :=
  let e_x := exp_approx_taylorAVX2 expi (.fin x)
  let e_minus_x := exp_approx_taylorAVX2 expi (.fin (0 - x))
  if 0 < x then e_x * rcpPS (1 + e_x) else rcpPS (1 + e_minus_x)

/-- tanh on AVX2/AVX512BW (finite lane): (e^x - e^-x) / (e^x + e^-x). -/
def tanhAVX2 (expi : ℤ → ℚ) (x : ℚ) : ℚ :=
  let e_x := exp_approx_taylorAVX2 expi (.fin x)
  let e_minus_x := exp_approx_taylorAVX2 expi (.fin (0 - x))
  (e_x - e_minus_x) / (e_x + e_minus_x)

/-- C9: on the smallest tier the three transcendental kernels never return a
value (the assert(false) body is modelled as none), for every input — there is
no recoverable error path; on the larger tiers the corresponding functions
(exp_approx_taylorAVX2/AVX512, sigmoidAVX2, tanhAVX2) are total, plain-valued
functions. -/
theorem tier0_transcendental_fatal :
    (∀ x, exp_approx_taylorSSE2 x = none) ∧
    (∀ x, sigmoidSSE2 x = none) ∧
    (∀ x, tanhSSE2 x = none) :=
  ⟨fun _ => rfl, fun _ => rfl, fun _ => rfl⟩

/-! ## Callback layer (src/callbacks/implementations.inl)

Modelled at the 4-lane (SSE2, 128-bit) instantiation: the accumulator register
carries four int32 lanes and a write covers four floats.  Memory is a total map
from integer indices (in float-element units) to lane values. -/

/-- Modelled from the spec: OutputBufferInfo (declared in
callbacks/output_buffer_info.h, which is not among the sources): the immutable
tile-position record {row_idx, col_idx, rows, cols}, used only to compute the
linear destination offset row_idx*cols + col_idx. -/
structure OutputBufferInfo where
  row_idx : ℕ
  col_idx : ℕ
  rows : ℕ
  cols : ℕ

/-- A float buffer: a total map from element index to lane value. -/
def Mem : Type := ℤ → ℚ

/-- write kernel (src/kernels/implementations.inl lines 46-48): unaligned store
of the four float lanes of the register at output + offset; every other
address keeps its previous content. -/
def write4 (input : Fin 4 → ℚ) (output : Mem) (offset : ℕ) : Mem :=
  fun j =>
    if h : (offset : ℤ) ≤ j ∧ j < (offset : ℤ) + 4 then
      input ⟨(j - (offset : ℤ)).toNat, by omega⟩
    else output j

/-- unquantize applied to the four int32 accumulator lanes (lane-wise). -/
def unquantizeVec4 (input : Fin 4 → ℤ) (unquant_mult : ℚ) : Fin 4 → ℚ :=
  fun i => unquantize (input i) unquant_mult

/-- add_bias kernel, float overload (src/kernels/implementations.inl lines
86-89): load a four-float vector unaligned at bias_addr + bias_offset and add
lane-wise. -/
def add_bias4 (input : Fin 4 → ℚ) (bias : Mem) (bias_offset : ℕ) : Fin 4 → ℚ :=
  fun i => input i + bias ((bias_offset : ℤ) + i)

/-- CallbackImpl<Dummy>::operator() (callbacks/implementations.inl lines
49-53): empty body — no memory is written. -/
def runDummy (_input : Fin 4 → ℤ) (_info : OutputBufferInfo) (dest : Mem) : Mem :=
  dest

/-- CallbackImpl<UnquantizeAndWrite>::operator() (lines 58-70): unquantize the
accumulator with the cached broadcast unquant_mult, then write at
row_idx * cols + col_idx of the configured destination. -/
def runUnquantizeAndWrite (unquant_mult : ℚ) (input : Fin 4 → ℤ)
    (info : OutputBufferInfo) (dest : Mem) : Mem :=
  write4 (unquantizeVec4 input unquant_mult) dest
    (info.row_idx * info.cols + info.col_idx)

/-- CallbackImpl<UnquantizeAndAddBiasAndWrite>::operator() (lines 75-88):
unquantize, add the bias vector read at column offset col_idx, write at
row_idx * cols + col_idx of the configured output. -/
def runUnquantizeAndAddBiasAndWrite (unquant_mult : ℚ) (input : Fin 4 → ℤ)
    (info : OutputBufferInfo) (bias dest : Mem) : Mem :=
  write4 (add_bias4 (unquantizeVec4 input unquant_mult) bias info.col_idx) dest
    (info.row_idx * info.cols + info.col_idx)

/-- The C5 scenario accumulator [100, -50, 0, 25]. -/
def c5Input : Fin 4 → ℤ :=
  fun i => if i.val = 0 then 100 else if i.val = 1 then -50 else if i.val = 2 then 0 else 25

/-- The C5 scenario tile position: origin tile of a 1-row, 4-column output. -/
def c5Info : OutputBufferInfo := ⟨0, 0, 1, 4⟩

/-- C5: with the int32 accumulator [100, -50, 0, 25] and scale 0.1 (the exact
rational 1/10; with the float32 value of 0.1 the hardware products round to
the very same floats), UnquantizeAndWrite writes exactly [10, -5, 0, 5/2] to
the 4-element destination window and changes nothing outside it; with bias
[1, 1, 1, 1], UnquantizeAndAddBiasAndWrite writes exactly [11, -4, 1, 7/2]
and changes nothing outside the window. -/
theorem callback_scenario (dest : Mem) :
    runUnquantizeAndWrite (1/10) c5Input c5Info dest 0 = 10 ∧
    runUnquantizeAndWrite (1/10) c5Input c5Info dest 1 = -5 ∧
    runUnquantizeAndWrite (1/10) c5Input c5Info dest 2 = 0 ∧
    runUnquantizeAndWrite (1/10) c5Input c5Info dest 3 = 5/2 ∧
    (∀ j : ℤ, j < 0 ∨ 4 ≤ j →
      runUnquantizeAndWrite (1/10) c5Input c5Info dest j = dest j) ∧
    runUnquantizeAndAddBiasAndWrite (1/10) c5Input c5Info (fun _ => 1) dest 0 = 11 ∧
    runUnquantizeAndAddBiasAndWrite (1/10) c5Input c5Info (fun _ => 1) dest 1 = -4 ∧
    runUnquantizeAndAddBiasAndWrite (1/10) c5Input c5Info (fun _ => 1) dest 2 = 1 ∧
    runUnquantizeAndAddBiasAndWrite (1/10) c5Input c5Info (fun _ => 1) dest 3 = 7/2 ∧
    (∀ j : ℤ, j < 0 ∨ 4 ≤ j →
      runUnquantizeAndAddBiasAndWrite (1/10) c5Input c5Info (fun _ => 1) dest j
        = dest j) := by
  have hout1 : ∀ j : ℤ, j < 0 ∨ 4 ≤ j →
      runUnquantizeAndWrite (1/10) c5Input c5Info dest j = dest j := by
    intro j hj
    simp only [runUnquantizeAndWrite, write4, c5Info]
    rw [dif_neg]
    intro hcon
    omega
  have hout2 : ∀ j : ℤ, j < 0 ∨ 4 ≤ j →
      runUnquantizeAndAddBiasAndWrite (1/10) c5Input c5Info (fun _ => 1) dest j
        = dest j := by
    intro j hj
    simp only [runUnquantizeAndAddBiasAndWrite, write4, c5Info]
    rw [dif_neg]
    intro hcon
    omega
  refine ⟨?_, ?_, ?_, ?_, hout1, ?_, ?_, ?_, ?_, hout2⟩ <;>
    · simp only [runUnquantizeAndWrite, runUnquantizeAndAddBiasAndWrite, write4,
        unquantizeVec4, add_bias4, unquantize, c5Input, c5Info]
      norm_num [show Int.toNat 2 = 2 from rfl, show Int.toNat 3 = 3 from rfl]

theorem callback_scenario_witness :
    runUnquantizeAndWrite (1/10) c5Input c5Info (fun _ => 0) 0 = 10 ∧
    runUnquantizeAndWrite (1/10) c5Input c5Info (fun _ => 0) 7 = 0 :=
  ⟨(callback_scenario (fun _ => 0)).1,
   (callback_scenario (fun _ => 0)).2.2.2.2.1 7 (Or.inr (by norm_num))⟩

/-- C6: the writes of a callback invocation are exactly the destination window
[row_idx*cols + col_idx, row_idx*cols + col_idx + 4): every address outside it
keeps its previous content under both writing callbacks, every address inside
it receives the corresponding final lane value, and the Dummy callback writes
no memory at all. -/
theorem callback_frame :
    (∀ (mult : ℚ) (input : Fin 4 → ℤ) (info : OutputBufferInfo) (dest : Mem)
        (j : ℤ),
      j < ((info.row_idx * info.cols + info.col_idx : ℕ) : ℤ) ∨
        ((info.row_idx * info.cols + info.col_idx : ℕ) : ℤ) + 4 ≤ j →
      runUnquantizeAndWrite mult input info dest j = dest j) ∧
    (∀ (mult : ℚ) (input : Fin 4 → ℤ) (info : OutputBufferInfo)
        (bias dest : Mem) (j : ℤ),
      j < ((info.row_idx * info.cols + info.col_idx : ℕ) : ℤ) ∨
        ((info.row_idx * info.cols + info.col_idx : ℕ) : ℤ) + 4 ≤ j →
      runUnquantizeAndAddBiasAndWrite mult input info bias dest j = dest j) ∧
    (∀ (mult : ℚ) (input : Fin 4 → ℤ) (info : OutputBufferInfo) (dest : Mem)
        (i : Fin 4),
      runUnquantizeAndWrite mult input info dest
          (((info.row_idx * info.cols + info.col_idx : ℕ) : ℤ) + i)
        = unquantizeVec4 input mult i) ∧
    (∀ (mult : ℚ) (input : Fin 4 → ℤ) (info : OutputBufferInfo)
        (bias dest : Mem) (i : Fin 4),
      runUnquantizeAndAddBiasAndWrite mult input info bias dest
          (((info.row_idx * info.cols + info.col_idx : ℕ) : ℤ) + i)
        = add_bias4 (unquantizeVec4 input mult) bias info.col_idx i) ∧
    (∀ (input : Fin 4 → ℤ) (info : OutputBufferInfo) (dest : Mem),
      runDummy input info dest = dest) := by
  have hwin : ∀ (v : Fin 4 → ℚ) (dest : Mem) (off : ℕ) (i : Fin 4),
      write4 v dest off ((off : ℤ) + i) = v i := by
    intro v dest off i
    have hi := i.isLt
    unfold write4
    rw [dif_pos (by constructor <;> omega)]
    apply congrArg
    apply Fin.ext
    show ((off : ℤ) + i - off).toNat = i.val
    omega
  have hout : ∀ (v : Fin 4 → ℚ) (dest : Mem) (off : ℕ) (j : ℤ),
      j < (off : ℤ) ∨ (off : ℤ) + 4 ≤ j → write4 v dest off j = dest j := by
    intro v dest off j hj
    unfold write4
    rw [dif_neg]
    intro hcon
    omega
  exact ⟨fun mult input info dest j hj => hout _ _ _ _ hj,
    fun mult input info bias dest j hj => hout _ _ _ _ hj,
    fun mult input info dest i => hwin _ _ _ _,
    fun mult input info bias dest i => hwin _ _ _ _,
    fun _ _ _ => rfl⟩

theorem callback_frame_witness :
    runUnquantizeAndWrite 1 (fun _ => 0) ⟨1, 2, 3, 5⟩ (fun _ => 0) 3 = 0 ∧
    runUnquantizeAndAddBiasAndWrite 1 (fun _ => 0) ⟨1, 2, 3, 5⟩ (fun _ => 0)
      (fun _ => 0) 20 = 0 :=
  ⟨callback_frame.1 1 (fun _ => 0) ⟨1, 2, 3, 5⟩ (fun _ => 0) 3
      (Or.inl (by norm_num)),
   callback_frame.2.1 1 (fun _ => 0) ⟨1, 2, 3, 5⟩ (fun _ => 0) (fun _ => 0) 20
      (Or.inr (by norm_num))⟩

end IntgemmSpec
